import Mathlib

/-!
Shallow embedding of `lettersmith/util.py`: utility functions for working
with document dictionaries and iterables.

Python values flowing through these utilities are modelled by `Value`:
`None`, ints, strings, lists/tuples (both as `Value.list`), dicts with
string keys (insertion-ordered association lists; real Python dicts never
hold duplicate keys), and plain attribute-bearing objects (`Value.obj`).
Python exceptions are modelled with `Except PyError`; generators are
modelled as the list of values they produce, with the first raised
exception surfacing as the `Except.error` of the whole run.
-/

namespace Lettersmith

/-- Python exceptions raised by the module. -/
inductive PyError where
  | typeError (msg : String) : PyError
  | valueError (msg : String) : PyError
deriving DecidableEq

/-- Model of the Python values the utilities operate on. -/
inductive Value where
  | none : Value
  | int (n : Int) : Value
  | str (s : String) : Value
  | list (items : List Value) : Value
  | dict (entries : List (String × Value)) : Value
  | obj (attrs : List (String × Value)) : Value

/-- A Python dict with string keys: an insertion-ordered association list. -/
abbrev Dict := List (String × Value)

mutual

/-- Python `==` on the modelled values.  Dicts compare as unordered
key-to-value mappings.  Default object equality is reference identity,
which a value model cannot express; no claim compares two objects, and we
conservatively return `false` for them. -/
def pyEq : Value → Value → Bool
  | Value.none, Value.none => true
  | Value.int m, Value.int n => m == n
  | Value.str s, Value.str t => s == t
  | Value.list xs, Value.list ys => pyEqList xs ys
  | Value.dict xs, Value.dict ys => xs.length == ys.length && pyEqEntries xs ys
  | _, _ => false

/-- Elementwise Python `==` on lists. -/
def pyEqList : List Value → List Value → Bool
  | [], [] => true
  | x :: xs, y :: ys => pyEq x y && pyEqList xs ys
  | _, _ => false

/-- Every entry of the first dict is present, with a `pyEq`-equal value,
in the second. -/
def pyEqEntries : List (String × Value) → List (String × Value) → Bool
  | [], _ => true
  | (k, v) :: rest, ys =>
      (match List.lookup k ys with
       | some w => pyEq v w
       | none => false) && pyEqEntries rest ys

end

/-- `get(x, key, default=None)` — a singledispatch getter.  The only
registered implementation is `get_dict` (`d.get(key, default)`); every
other type falls to the base implementation, which raises `TypeError`
(the `.format(x)` repr of the offending value is dropped from the
message). -/
def get (x : Value) (key : String) (default : Value := Value.none) :
    Except PyError Value :=
  match x with
  | Value.dict d => Except.ok ((List.lookup key d).getD default)
  | _ => Except.error (PyError.typeError "Cannot get entries on unknown type")

/-- A key argument to `get_deep`: either a dot-delimited string or an
already-ordered sequence of keys. -/
inductive Key where
  | str (s : String) : Key
  | path (keys : List String) : Key

/-- Python `s.split(".")`, on the character list: maximal runs between
`'.'` separators, with empty runs kept. -/
def splitChars : List Char → List (List Char)
  | [] => [[]]
  | c :: cs =>
      if c == '.' then [] :: splitChars cs
      else
        match splitChars cs with
        | [] => [[c]]
        | g :: gs => (c :: g) :: gs

/-- Python `key.split(".")`. -/
def splitOnDot (s : String) : List String :=
  (splitChars s.data).map (fun cs => String.mk cs)

/-- `keys = key.split(".") if type(key) is str else tuple(key)`. -/
def keyToList : Key → List String
  | Key.str s => splitOnDot s
  | Key.path ks => ks

/-- The loop of `get_deep`: walk the keys, rebinding `d = get(d, key)`
(so each step uses `None` as its default); `d == None` returns the
caller's default at once.  For the modelled standard types `x == None`
holds exactly when `x` is `None`. -/
def get_deep_keys (d : Value) (keys : List String) (default : Value) :
    Except PyError Value :=
  match keys with
  | [] => Except.ok d
  | k :: rest => do
      let d' ← get d k
      if pyEq d' Value.none then Except.ok default
      else get_deep_keys d' rest default

/-- `get_deep(d, key, default=None)`. -/
def get_deep (d : Value) (key : Key) (default : Value := Value.none) :
    Except PyError Value :=
  get_deep_keys d (keyToList key) default

/-- `d.copy()` — a shallow copy; in the value model, the same entry list. -/
def dict_copy (d : Dict) : Dict := d

/-- `e.update(kwargs)` — existing keys keep their position and take the
new value; keys not yet present are appended in `kwargs` order. -/
def dict_update (e kwargs : Dict) : Dict :=
  e.map (fun p => (p.1, (List.lookup p.1 kwargs).getD p.2))
    ++ kwargs.filter (fun p => (List.lookup p.1 e).isNone)

/-- `replace_dict(d, **kwargs)` — the `dict` registration of `replace`:
copy `d`, update the copy, return it; `d` itself is never touched. -/
def replace_dict (d : Dict) (kwargs : Dict) : Dict :=
  dict_update (dict_copy d) kwargs

/-- `compose2(f, e)` — compose two functions. -/
def compose2 {α β γ : Type} (f : β → γ) (e : α → β) : α → γ :=
  fun x => f (e x)

/-- `compose(fn, *fns) = reduce(compose2, fns, fn)` — a left fold of
`compose2` over the remaining functions, seeded with the first one. -/
def compose {α β : Type} (fn : α → β) (fns : List (α → α)) : α → β :=
  fns.foldl compose2 fn

/-- The accumulator loop of `chunk`: append each element, emit the
accumulator when it reaches `n`, emit a nonempty leftover at the end. -/
def chunkLoop {α : Type} (n : Nat) (acc : List α) : List α → List (List α)
  | [] => if acc.length > 0 then [acc] else []
  | x :: rest =>
      let acc' := acc ++ [x]
      if acc'.length == n then acc' :: chunkLoop n [] rest
      else chunkLoop n acc' rest

/-- `chunk(iterable, n)` — split an iterable into chunks of size `n`,
as the list of chunks the generator yields. -/
def chunk {α : Type} (xs : List α) (n : Nat) : List (List α) :=
  chunkLoop n [] xs

/-- `fnmatch.fnmatch`-style glob matching over characters: `*` matches
any run, `?` any single character, anything else itself.  Bracket
classes are not exercised by any claim and are not modelled. -/
def globMatch : List Char → List Char → Bool
  | [], [] => true
  | [], _ :: _ => false
  | '*' :: ps, [] => globMatch ps []
  | '*' :: ps, c :: cs => globMatch ps (c :: cs) || globMatch ('*' :: ps) cs
  | '?' :: ps, _ :: cs => globMatch ps cs
  | _ :: _, [] => false
  | p :: ps, c :: cs => p == c && globMatch ps cs
termination_by p s => p.length + s.length

/-- `fnmatch(name, pat)` — `fnmatch` normalises `name` with
`os.path.normcase`, which rejects a non-string (in particular the `None`
produced by a failed lookup) with a `TypeError` before any matching. -/
def fnmatch (name : Value) (pat : String) : Except PyError Bool :=
  match name with
  | Value.str s => Except.ok (globMatch pat.data s.data)
  | _ => Except.error (PyError.typeError "expected str, bytes or os.PathLike object")

/-- `id_path_matches(x, match)` — the conditional expression tests
`match != "*"` first, so pattern `"*"` answers `True` without any
lookup; otherwise the `id_path` field is fetched and glob-matched. -/
def id_path_matches (x : Value) (m : String) : Except PyError Bool :=
  if m ≠ "*" then do
    let v ← get x "id_path"
    fnmatch v m
  else Except.ok true

/-- `match_by_id_path(docs, match)` — the generator, as the list it
produces. -/
def match_by_id_path (docs : List Value) (m : String) :
    Except PyError (List Value) :=
  match docs with
  | [] => Except.ok []
  | doc :: rest => do
      let b ← id_path_matches doc m
      let r ← match_by_id_path rest m
      Except.ok (if b then doc :: r else r)

/-- The wrapped `f_match_group(iter, groups, defaults={})`: one call of
`f` per `(pattern, kwargs)` group, in group order, on the items the
predicate accepts for that pattern, with `replace(defaults, **kwargs)`
as the keyword arguments. -/
def f_match_group (R : Type) (predicate : Value → String → Bool)
    (f : List Value → Dict → R) (items : List Value) :
    List (String × Dict) → Dict → List R
  | [], _ => []
  | (pattern, kwargs) :: rest, defaults =>
      f (items.filter (fun item => predicate item pattern))
          (replace_dict defaults kwargs)
        :: f_match_group R predicate f items rest defaults

/-- `decorate_group_matching(predicate)(f)` — materialise the input
once (`items = tuple(iter)`), then yield one reduction per group. -/
def decorate_group_matching (R : Type) (predicate : Value → String → Bool)
    (f : List Value → Dict → R) (iter : List Value)
    (groups : List (String × Dict)) (defaults : Dict := []) : List R :=
  let items := iter
  f_match_group R predicate f items groups defaults

/-- `_EMPTY_TUPLE = tuple()`. -/
def _EMPTY_TUPLE : Value := Value.list []

/-- Whether `needle` begins `hay` (character lists). -/
def charsStartWith : List Char → List Char → Bool
  | [], _ => true
  | _ :: _, [] => false
  | a :: as, b :: bs => a == b && charsStartWith as bs

/-- Whether `needle` occurs inside `hay` (Python `str` containment). -/
def charsContain (needle : List Char) : List Char → Bool
  | [] => charsStartWith needle []
  | c :: rest => charsStartWith needle (c :: rest) || charsContain needle rest

/-- Python `v in coll`: element membership for lists/tuples, substring
for strings, key membership for dicts, `TypeError` for non-containers
(and for unhashable keys probed against a dict). -/
def pyIn (v : Value) (coll : Value) : Except PyError Bool :=
  match coll with
  | Value.list xs => Except.ok (xs.any (fun x => pyEq x v))
  | Value.str s =>
      match v with
      | Value.str t => Except.ok (charsContain t.data s.data)
      | _ => Except.error (PyError.typeError "requires string as left operand")
  | Value.dict es =>
      match v with
      | Value.str k => Except.ok (es.any (fun p => p.1 == k))
      | Value.none => Except.ok false
      | Value.int _ => Except.ok false
      | _ => Except.error (PyError.typeError "unhashable type")
  | _ => Except.error (PyError.typeError "argument is not iterable")

/-- `any_in(collection, values)` — `True` as soon as one value is in
the collection, else `False`. -/
def any_in (collection : Value) (values : List Value) : Except PyError Bool :=
  match values with
  | [] => Except.ok false
  | v :: rest => do
      let b ← pyIn v collection
      if b then Except.ok true else any_in collection rest

/-- The per-document test of `where_contains_any`:
`any_in(get_deep(x, key, _EMPTY_TUPLE), terms)`. -/
def doc_matches_any (key : Key) (terms : List Value) (x : Value) :
    Except PyError Bool := do
  let coll ← get_deep x key _EMPTY_TUPLE
  any_in coll terms

/-- `doc_matches_any` read as a plain boolean (`false` when it raises);
used to state which documents the generator yields. -/
def matches_any_bool (key : Key) (terms : List Value) (x : Value) : Bool :=
  match doc_matches_any key terms x with
  | Except.ok b => b
  | Except.error _ => false

/-- `where_contains_any(dicts, key, terms)` — the generator, as the
list it produces. -/
def where_contains_any (dicts : List Value) (key : Key)
    (terms : List Value) : Except PyError (List Value) :=
  match dicts with
  | [] => Except.ok []
  | x :: rest => do
      let b ← doc_matches_any key terms x
      let r ← where_contains_any rest key terms
      Except.ok (if b then x :: r else r)

mutual

/-- Python `<` on the modelled values: ints, strings, and
lists/tuples are ordered; every other combination raises `TypeError`. -/
def pyLt : Value → Value → Except PyError Bool
  | Value.int m, Value.int n => Except.ok (decide (m < n))
  | Value.str s, Value.str t => Except.ok (decide (s < t))
  | Value.list xs, Value.list ys => pyLtList xs ys
  | _, _ => Except.error (PyError.typeError "not supported between instances")

/-- Lexicographic `<` on lists: skip `==` pairs, then compare the first
differing pair; a strict prefix is smaller. -/
def pyLtList : List Value → List Value → Except PyError Bool
  | [], [] => Except.ok false
  | [], _ :: _ => Except.ok true
  | _ :: _, [] => Except.ok false
  | x :: xs, y :: ys =>
      if pyEq x y then pyLtList xs ys else pyLt x y

end

/-- CPython `len(a) is not len(b)`: ints in the small-int cache (the
lengths in play are nonnegative, so `0..256`) are interned and compare
by value; two separately computed equal lengths above `256` are
distinct objects, so `is not` holds for them. -/
def lenIsNot (a b : Nat) : Bool :=
  !(a == b && decide (a ≤ 256))

/-- The `fkey` of `sort_by_keys`: the tuple of deep gets, one per
`(key, default)` pair of `zip(keys_tuple, defaults_tuple)`. -/
def sort_key (keys : List Key) (defaults : List Value) (d : Value) :
    Except PyError Value := do
  let vals ← (keys.zip defaults).mapM (fun kd => get_deep d kd.1 kd.2)
  Except.ok (Value.list vals)

/-- Stable insertion of a decorated `(key, doc)` pair: it goes in front
of the first resident the comparator does not place strictly below it. -/
def insertSorted (lt : Value → Value → Except PyError Bool)
    (x : Value × Value) :
    List (Value × Value) → Except PyError (List (Value × Value))
  | [] => Except.ok [x]
  | y :: ys => do
      let b ← lt y.1 x.1
      if b then do
        let r ← insertSorted lt x ys
        Except.ok (y :: r)
      else Except.ok (x :: y :: ys)

/-- Stable sort of decorated `(key, doc)` pairs — extensionally the
order CPython's `sorted` produces whenever all keys are mutually
comparable. -/
def sortPairs (lt : Value → Value → Except PyError Bool) :
    List (Value × Value) → Except PyError (List (Value × Value))
  | [] => Except.ok []
  | x :: xs => do
      let s ← sortPairs lt xs
      insertSorted lt x s

/-- `sort_by_keys(dicts_iter, keys, defaults=_EMPTY_TUPLE,
reverse=False)` — materialise everything, guard the lengths with the
source's `is not` comparison, then sort by the composite key tuple
(`reverse=True` flips every comparison while keeping equal keys in
input order, as CPython does). -/
def sort_by_keys (dicts_iter : List Value) (keys : List Key)
    (defaults : List Value) (reverse : Bool := false) :
    Except PyError (List Value) :=
  let dicts_tuple := dicts_iter
  let keys_tuple := keys
  let defaults_tuple := defaults
  if lenIsNot defaults_tuple.length keys_tuple.length then
    Except.error (PyError.valueError "defaults iterable must be same length as keys")
  else do
    let decorated ← dicts_tuple.mapM (fun d => do
      let k ← sort_key keys_tuple defaults_tuple d
      Except.ok (k, d))
    let lt := fun a b => if reverse then pyLt b a else pyLt a b
    let sorted ← sortPairs lt decorated
    Except.ok (sorted.map (fun p => p.2))

/-! ## Claim theorems -/

/-- C1: `get_deep` walks the key path calling `get` at each step with
`None` as the intermediate default: a step whose value `== None`
short-circuits to the caller-supplied default without attempting
further steps; a non-`None` step value is carried into the rest of the
path; the terminal value is returned as-is; and in particular the
falsy values `0`, `""`, and empty containers are returned, never
replaced by the default. -/
theorem get_deep_short_circuit_spec :
    (∀ (d : Value) (k : String) (rest : List String) (v : Value),
      get d k = Except.ok Value.none →
      get_deep d (Key.path (k :: rest)) v = Except.ok v)
    ∧ (∀ (d : Value) (k : String) (rest : List String) (v w : Value),
      get d k = Except.ok w → pyEq w Value.none = false →
      get_deep d (Key.path (k :: rest)) v = get_deep w (Key.path rest) v)
    ∧ (∀ (d v : Value), get_deep d (Key.path []) v = Except.ok d)
    ∧ (∀ v : Value,
      get_deep (Value.dict [("a", Value.int 0)]) (Key.str "a") v
          = Except.ok (Value.int 0)
      ∧ get_deep (Value.dict [("a", Value.str "")]) (Key.str "a") v
          = Except.ok (Value.str "")
      ∧ get_deep (Value.dict [("a", Value.list [])]) (Key.str "a") v
          = Except.ok (Value.list [])
      ∧ get_deep (Value.dict [("a", Value.dict [])]) (Key.str "a") v
          = Except.ok (Value.dict [])) := by
  refine ⟨?_, ?_, fun d v => rfl, fun v => ⟨rfl, rfl, rfl, rfl⟩⟩
  · intro d k rest v h
    show get_deep_keys d (k :: rest) v = Except.ok v
    simp only [get_deep_keys]
    rw [h]
    rfl
  · intro d k rest v w h hw
    show get_deep_keys d (k :: rest) v = get_deep_keys w rest v
    simp only [get_deep_keys]
    rw [h]
    show (if pyEq w Value.none = true then Except.ok v
          else get_deep_keys w rest v) = get_deep_keys w rest v
    simp [hw]

/-- C1 witness: a `None` at the first step of a two-step path returns
the default `7` without touching the second key. -/
theorem get_deep_short_circuit_spec_witness :
    get_deep (Value.dict [("a", Value.none), ("b", Value.int 1)])
        (Key.path ["a", "x"]) (Value.int 7)
      = Except.ok (Value.int 7) :=
  get_deep_short_circuit_spec.1
    (Value.dict [("a", Value.none), ("b", Value.int 1)]) "a" ["x"]
    (Value.int 7) rfl

/-- C2: the base (non-dict) implementation of `get` raises `TypeError`
for every non-mapping value — here an attribute-bearing object that
does carry the requested field — instead of falling back to
attribute-style lookup as the claim (and the function's own docstring)
describes. -/
theorem get_unknown_type_raises :
    get (Value.obj [("id_path", Value.str "a")]) "id_path"
      = Except.error (PyError.typeError "Cannot get entries on unknown type") := rfl

set_option maxRecDepth 4000 in
/-- C3: with 257 keys and 257 defaults — equal lengths — `sort_by_keys`
still raises `ValueError`, because the length guard compares with
`is not`, which on CPython ints beyond the small-int cache (> 256) is
object identity, not value inequality; with equal lengths inside the
cached range no error is raised and the documents are sorted by the
composite key tuple. -/
theorem sort_by_keys_length_check_behavior :
    sort_by_keys [Value.dict [("a", Value.int 1)]]
        (List.replicate 257 (Key.path ["a"])) (List.replicate 257 Value.none) false
      = Except.error (PyError.valueError "defaults iterable must be same length as keys")
    ∧ sort_by_keys [Value.dict [("a", Value.int 1)], Value.dict [("a", Value.int 0)]]
        [Key.path ["a"]] [Value.none] false
      = Except.ok [Value.dict [("a", Value.int 0)], Value.dict [("a", Value.int 1)]] :=
  ⟨rfl, rfl⟩

/-- C5: a dot-delimited string key is equivalent to the ordered
sequence of its segments: `get_deep(d, "a.b.c", v)` equals
`get_deep(d, ("a", "b", "c"), v)` for every document and default. -/
theorem get_deep_string_path_equiv :
    ∀ (d v : Value),
      get_deep d (Key.str "a.b.c") v = get_deep d (Key.path ["a", "b", "c"]) v :=
  fun _ _ => rfl

/-- C7: `compose` left-folds `compose2` over its argument list seeded
with the first function, so `compose(f, g, h)(x) = f(g(h(x)))`: the
rightmost function is applied to the raw input first (appending a
function to the list pre-composes it onto the input) and the leftmost
function is applied last. -/
theorem compose_spec :
    (∀ (α β : Type) (f : α → β) (g h : α → α) (x : α),
      compose f [g, h] x = f (g (h x)))
    ∧ (∀ (α β : Type) (f : α → β) (x : α), compose f [] x = f x)
    ∧ (∀ (α β : Type) (f : α → β) (fns : List (α → α)) (g : α → α) (x : α),
      compose f (fns ++ [g]) x = compose f fns (g x))
    ∧ (∀ (α β : Type) (f : α → β) (g : α → α) (fns : List (α → α)),
      compose f (g :: fns) = compose (compose2 f g) fns) := by
  refine ⟨fun α β f g h x => rfl, fun α β f x => rfl, ?_,
    fun α β f g fns => rfl⟩
  intro α β f fns g x
  simp [compose, List.foldl_append, compose2]

/-- Reduction of the `Except` bind on a success value (helper). -/
theorem exceptBind_ok {ε α β : Type} (a : α) (f : α → Except ε β) :
    (Except.ok a >>= f : Except ε β) = f a := rfl

/-- C10: pattern `"*"` answers `True` without performing any lookup
(it does so even on values `get` cannot handle at all), so
`match_by_id_path` with `"*"` yields every document, documents lacking
`id_path` included; for any other pattern, a mapping document without
an `id_path` field makes `id_path_matches` raise a `TypeError`
(`None` is not a valid match subject) rather than return `False`. -/
theorem id_path_matches_spec :
    (∀ x : Value, id_path_matches x "*" = Except.ok true)
    ∧ (∀ ds : List Value, match_by_id_path ds "*" = Except.ok ds)
    ∧ (∀ (entries : Dict) (pat : String), pat ≠ "*" →
        List.lookup "id_path" entries = none →
        id_path_matches (Value.dict entries) pat
          = Except.error (PyError.typeError "expected str, bytes or os.PathLike object")) := by
  have hstar : ∀ x : Value, id_path_matches x "*" = Except.ok true := by
    intro x; simp [id_path_matches]
  refine ⟨hstar, ?_, ?_⟩
  · intro ds
    induction ds with
    | nil => rfl
    | cons d rest ih =>
        simp only [match_by_id_path, hstar d, ih, exceptBind_ok]
        rfl
  · intro entries pat hpat hlook
    simp only [id_path_matches, if_pos hpat, get, hlook, Option.getD_none,
      exceptBind_ok]
    rfl

/-- C10 witness: the empty mapping has no `id_path`, and a non-`"*"`
pattern makes the predicate raise. -/
theorem id_path_matches_spec_witness :
    id_path_matches (Value.dict []) "a*"
      = Except.error (PyError.typeError "expected str, bytes or os.PathLike object") :=
  id_path_matches_spec.2.2 [] "a*" (by decide) rfl

/-- `any_in` over the empty tuple finds nothing, whatever the terms
(helper). -/
theorem any_in_empty (terms : List Value) :
    any_in _EMPTY_TUPLE terms = Except.ok false := by
  induction terms with
  | nil => rfl
  | cons v rest ih =>
      show any_in _EMPTY_TUPLE rest = Except.ok false
      exact ih

/-- C8: when every document of the input evaluates its membership test
without raising, `where_contains_any` yields exactly the documents
whose collection at the key contains some term, in input order (a
`filter` of the input); and a document whose deep get falls back to
the empty-tuple default matches no term at all, so a missing key means
the document is excluded. -/
theorem where_contains_any_spec :
    (∀ (ds : List Value) (key : Key) (terms : List Value),
      (∀ d ∈ ds, doc_matches_any key terms d
          = Except.ok (matches_any_bool key terms d)) →
      where_contains_any ds key terms
        = Except.ok (ds.filter (matches_any_bool key terms)))
    ∧ (∀ (key : Key) (terms : List Value) (d : Value),
      get_deep d key _EMPTY_TUPLE = Except.ok _EMPTY_TUPLE →
      doc_matches_any key terms d = Except.ok false)
    ∧ (∀ terms : List Value, any_in _EMPTY_TUPLE terms = Except.ok false) := by
  refine ⟨?_, ?_, any_in_empty⟩
  · intro ds key terms h
    induction ds with
    | nil => rfl
    | cons x rest ih =>
        have hx := h x (List.mem_cons_self x rest)
        have hrest := fun d hd => h d (List.mem_cons_of_mem x hd)
        simp only [where_contains_any, hx, ih hrest, exceptBind_ok,
          List.filter_cons]
  · intro key terms d h
    simp only [doc_matches_any, h, exceptBind_ok]
    exact any_in_empty terms

/-- C8 witness: of two documents, only the one whose `tags` collection
contains the term `"x"` is yielded; the one lacking `tags` is
excluded. -/
theorem where_contains_any_spec_witness :
    where_contains_any
        [Value.dict [("tags", Value.list [Value.str "x"])], Value.dict []]
        (Key.str "tags") [Value.str "x"]
      = Except.ok [Value.dict [("tags", Value.list [Value.str "x"])]] :=
  Eq.trans
    (where_contains_any_spec.1
      [Value.dict [("tags", Value.list [Value.str "x"])], Value.dict []]
      (Key.str "tags") [Value.str "x"]
      (by
        intro d hd
        cases hd with
        | head => rfl
        | tail _ h2 =>
            cases h2 with
            | head => rfl
            | tail _ h3 => cases h3))
    rfl

/-- C4: the decorated function produces one result per `(pattern,
config)` group, in group-declaration order: `f` applied to the
subsequence of documents the predicate accepts for that pattern —
a `filter`, so original relative order is preserved — with the
defaults merged with the config through `replace`; and a document
matching several patterns belongs to every matching group's
subsequence (no deduplication). -/
theorem decorate_group_matching_spec :
    ∀ (R : Type) (p : Value → String → Bool) (f : List Value → Dict → R)
      (ds : List Value) (gs : List (String × Dict)) (defs : Dict),
      decorate_group_matching R p f ds gs defs
          = gs.map (fun g =>
              f (ds.filter (fun d => p d g.1)) (replace_dict defs g.2))
      ∧ (∀ pat : String, List.Sublist (ds.filter (fun d => p d pat)) ds)
      ∧ (∀ (d : Value) (pat : String), d ∈ ds → p d pat = true →
          d ∈ ds.filter (fun d => p d pat)) := by
  intro R p f ds gs defs
  refine ⟨?_, fun pat => List.filter_sublist ds,
    fun d pat hd hp => List.mem_filter.mpr ⟨hd, hp⟩⟩
  induction gs with
  | nil => rfl
  | cons g rest ih =>
      obtain ⟨pattern, kwargs⟩ := g
      simp only [decorate_group_matching, f_match_group, List.map_cons] at ih ⊢
      rw [ih]

/-- C4 witness: a concrete group run, and a document accepted by a
pattern is a member of that group's subsequence. -/
theorem decorate_group_matching_spec_witness :
    decorate_group_matching Nat (fun _ _ => true) (fun l _ => l.length)
        [Value.int 1] [("x", [])] [] = [1]
    ∧ Value.int 1 ∈ List.filter
        (fun d => (fun (_ : Value) (_ : String) => true) d "x") [Value.int 1] :=
  ⟨rfl,
    (decorate_group_matching_spec Nat (fun _ _ => true) (fun l _ => l.length)
        [Value.int 1] [("x", [])] []).2.2 (Value.int 1) "x"
      (List.mem_singleton.mpr rfl) rfl⟩

/-- Lookup in the overwrite part of `dict_update` (helper): mapped
entries keep their keys and take the `kwargs` value when one exists. -/
theorem lookup_update_map (kw : Dict) (k : String) :
    ∀ d : Dict,
      List.lookup k (d.map (fun p => (p.1, (List.lookup p.1 kw).getD p.2)))
        = (List.lookup k d).map (fun v => (List.lookup k kw).getD v) := by
  intro d
  induction d with
  | nil => rfl
  | cons p rest ih =>
      obtain ⟨k1, v1⟩ := p
      cases hk : k == k1 with
      | true =>
          have hkk : k = k1 := eq_of_beq hk
          subst hkk
          simp [List.lookup, hk]
      | false => simp [List.lookup, hk, ih]

/-- Lookup in the append part of `dict_update` (helper): an entry of
`kw` survives the filter exactly when its key is absent from `d`. -/
theorem lookup_update_filter (d : Dict) (k : String) :
    ∀ kw : Dict,
      List.lookup k (kw.filter (fun p => (List.lookup p.1 d).isNone))
        = if (List.lookup k d).isNone then List.lookup k kw else none := by
  intro kw
  induction kw with
  | nil => simp
  | cons p rest ih =>
      obtain ⟨k1, v1⟩ := p
      cases h1 : (List.lookup k1 d).isNone with
      | true =>
          cases hk : k == k1 with
          | true =>
              have hkk : k = k1 := eq_of_beq hk
              subst hkk
              simp [List.filter_cons, h1, List.lookup, hk]
          | false => simp [List.filter_cons, h1, List.lookup, hk, ih]
      | false =>
          cases hk : k == k1 with
          | true =>
              have hkk : k = k1 := eq_of_beq hk
              subst hkk
              simp [List.filter_cons, h1, List.lookup, hk, ih]
          | false => simp [List.filter_cons, h1, List.lookup, hk, ih]

/-- Lookup distributes over append, first list first (helper). -/
theorem lookup_append_cases (k : String) :
    ∀ l1 l2 : Dict,
      List.lookup k (l1 ++ l2)
        = match List.lookup k l1 with
          | some v => some v
          | none => List.lookup k l2 := by
  intro l1 l2
  induction l1 with
  | nil => rfl
  | cons p rest ih =>
      obtain ⟨k1, v1⟩ := p
      cases hk : k == k1 with
      | true => simp [List.lookup, hk]
      | false => simp [List.lookup, hk, ih]

/-- C6: `replace_dict` returns a new dict equal to a shallow copy of
`d` with the named fields overwritten — a field named in `fs` has its
`fs` value, every other field keeps its `d` value — and with no
keyword fields the result is just the copy of `d`.  The model is pure,
mirroring the `copy`-then-`update` of the source: the returned dict is
built from a copy and the input `d` is never mutated. -/
theorem replace_dict_spec :
    ∀ (d fs : Dict) (k : String),
      (List.lookup k (replace_dict d fs)
        = match List.lookup k fs with
          | some v => some v
          | none => List.lookup k d)
      ∧ replace_dict d [] = d := by
  intro d fs k
  constructor
  · show List.lookup k (dict_update d fs) = _
    simp only [dict_update]
    rw [lookup_append_cases, lookup_update_map, lookup_update_filter]
    cases hd : List.lookup k d with
    | some v =>
        cases hfs : List.lookup k fs with
        | some w => simp
        | none => simp
    | none =>
        cases hfs : List.lookup k fs with
        | some w => simp [hfs]
        | none => simp [hfs]
  · show (d.map (fun p => (p.1, p.2)) ++ ([] : Dict)) = d
    simp

/-- Unfolding of `chunkLoop` on a cons, with a propositional guard
(helper). -/
theorem chunkLoop_cons_eq {α : Type} (n : Nat) (acc : List α) (x : α)
    (rest : List α) :
    chunkLoop n acc (x :: rest)
      = if (acc ++ [x]).length = n then (acc ++ [x]) :: chunkLoop n [] rest
        else chunkLoop n (acc ++ [x]) rest := by
  simp [chunkLoop]

/-- `chunkLoop` flattens back to the pending accumulator followed by
the remaining input (helper). -/
theorem chunkLoop_join {α : Type} (n : Nat) :
    ∀ (xs acc : List α), acc.length < n →
      (chunkLoop n acc xs).flatten = acc ++ xs := by
  intro xs
  induction xs with
  | nil =>
      intro acc hacc
      by_cases h : acc.length > 0
      · simp [chunkLoop, h]
      · have hnil : acc = [] := by
          cases acc with
          | nil => rfl
          | cons a t => simp at h
        subst hnil
        simp [chunkLoop]
  | cons x rest ih =>
      intro acc hacc
      rw [chunkLoop_cons_eq]
      by_cases hb : (acc ++ [x]).length = n
      · rw [if_pos hb]
        have h0 : 0 < n := by rw [← hb]; simp
        rw [List.flatten_cons, ih [] (by simpa using h0)]
        simp
      · rw [if_neg hb]
        have hlt : (acc ++ [x]).length < n := by
          simp only [List.length_append, List.length_cons, List.length_nil] at hb ⊢
          omega
        rw [ih (acc ++ [x]) hlt]
        simp

/-- Every chunk `chunkLoop` emits is nonempty and holds at most `n`
elements (helper). -/
theorem chunkLoop_mem {α : Type} (n : Nat) :
    ∀ (xs acc : List α), acc.length < n →
      ∀ c ∈ chunkLoop n acc xs, c ≠ [] ∧ c.length ≤ n := by
  intro xs
  induction xs with
  | nil =>
      intro acc hacc c hc
      by_cases h : acc.length > 0
      · simp [chunkLoop, h] at hc
        subst hc
        refine ⟨?_, Nat.le_of_lt hacc⟩
        intro hn
        subst hn
        simp at h
      · simp [chunkLoop, h] at hc
  | cons x rest ih =>
      intro acc hacc c hc
      rw [chunkLoop_cons_eq] at hc
      by_cases hb : (acc ++ [x]).length = n
      · rw [if_pos hb] at hc
        have h0 : 0 < n := by rw [← hb]; simp
        rcases List.mem_cons.mp hc with rfl | h2
        · exact ⟨by simp, Nat.le_of_eq hb⟩
        · exact ih [] (by simpa using h0) c h2
      · rw [if_neg hb] at hc
        have hlt : (acc ++ [x]).length < n := by
          simp only [List.length_append, List.length_cons, List.length_nil] at hb ⊢
          omega
        exact ih (acc ++ [x]) hlt c hc

/-- Every chunk `chunkLoop` emits before the last one has exactly `n`
elements (helper). -/
theorem chunkLoop_before_last {α : Type} (n : Nat) :
    ∀ (xs acc : List α), acc.length < n →
      ∀ (l1 : List (List α)) (c : List α) (l2 : List (List α)),
        chunkLoop n acc xs = l1 ++ c :: l2 → l2 ≠ [] → c.length = n := by
  intro xs
  induction xs with
  | nil =>
      intro acc hacc l1 c l2 heq hl2
      exfalso
      by_cases h : acc.length > 0
      · have heq2 : [acc] = l1 ++ c :: l2 := by
          rw [← heq]
          simp [chunkLoop, h]
        cases l2 with
        | nil => exact hl2 rfl
        | cons a t =>
            have hlen := congrArg List.length heq2
            simp [List.length_append] at hlen
            omega
      · have heq2 : ([] : List (List α)) = l1 ++ c :: l2 := by
          rw [← heq]
          simp [chunkLoop, h]
        cases l1 with
        | nil => simp at heq2
        | cons a t => simp at heq2
  | cons x rest ih =>
      intro acc hacc l1 c l2 heq hl2
      rw [chunkLoop_cons_eq] at heq
      by_cases hb : (acc ++ [x]).length = n
      · rw [if_pos hb] at heq
        have h0 : 0 < n := by rw [← hb]; simp
        cases l1 with
        | nil =>
            simp only [List.nil_append] at heq
            injection heq with h1 h2
            rw [← h1]
            exact hb
        | cons a t =>
            simp only [List.cons_append] at heq
            injection heq with h1 h2
            exact ih [] (by simpa using h0) t c l2 h2 hl2
      · rw [if_neg hb] at heq
        have hlt : (acc ++ [x]).length < n := by
          simp only [List.length_append, List.length_cons, List.length_nil] at hb ⊢
          omega
        exact ih (acc ++ [x]) hlt l1 c l2 heq hl2

/-- C9: for positive `n`, the chunks of `chunk` concatenate back to
the input (so batches are consecutive and in input order), every batch
is nonempty with at most `n` elements, every batch before the last has
exactly `n` elements, and in particular `chunk(range(7), 3)` yields
`[[0,1,2],[3,4,5],[6]]`. -/
theorem chunk_spec :
    (∀ (α : Type) (xs : List α) (n : Nat), 0 < n →
      (chunk xs n).flatten = xs
      ∧ (∀ c ∈ chunk xs n, c ≠ [] ∧ c.length ≤ n)
      ∧ (∀ (l1 : List (List α)) (c : List α) (l2 : List (List α)),
          chunk xs n = l1 ++ c :: l2 → l2 ≠ [] → c.length = n))
    ∧ chunk (List.range 7) 3 = [[0, 1, 2], [3, 4, 5], [6]] := by
  refine ⟨?_, rfl⟩
  intro α xs n hn
  have h0 : ([] : List α).length < n := by simpa using hn
  exact ⟨chunkLoop_join n xs [] h0, chunkLoop_mem n xs [] h0,
    chunkLoop_before_last n xs [] h0⟩

/-- C9 witness: a two-batch split of seven elements concatenates back
to the input. -/
theorem chunk_spec_witness :
    (chunk [0, 1, 2, 3, 4, 5, 6] 3).flatten = [0, 1, 2, 3, 4, 5, 6] :=
  (chunk_spec.1 Nat [0, 1, 2, 3, 4, 5, 6] 3 (by decide)).1

end Lettersmith
